import Mathlib

/-!
Verification development for the crypto trading dashboard's strategy/signal
engine and backtesting simulator.  The Python source is shallowly embedded:
prices and capital are rationals (the source uses binary floats; no claim
settled here depends on rounding), bar timestamps are naturals, pandas NaN
cells are `Option.none`, and the float-only phenomena that a claim does
depend on (NaN / ±infinity reaching the reported Sharpe ratio) are captured
by an explicit sum type `SharpeVal`.  Rational division is total (`x / 0 = 0`)
where float division by zero yields ±inf/NaN; no settled statement touches a
division by zero except through `SharpeVal`, where the zero-divisor branches
are modelled explicitly.
-/

namespace Dashboard

/-- Signal action, `'BUY'` / `'SELL'` in the source. -/
inductive Action where
  | buy
  | sell
deriving DecidableEq, Repr

/-- A signal dict as produced by every strategy's `generate_signals`:
`{'timestamp': ..., 'price': ..., 'action': ..., 'indicator': ...}`. -/
structure Signal where
  timestamp : ℕ
  price : ℚ
  action : Action
  indicator : String
deriving DecidableEq, Repr

/-- One row of the input DataFrame, reduced to the fields the embedded code
reads: the index entry (`data.index[i]`) and the `close` column. -/
structure Bar where
  timestamp : ℕ
  close : ℚ
deriving DecidableEq, Repr

/-- Rendering of an optional rational for indicator text; a missing value
prints as pandas prints NaN.  (The source's `:.2f` decimal rounding is
abstracted to exact rendering; no claim depends on the digits.) -/
def fmtOpt : Option ℚ → String
  | some q => toString q
  | none => "nan"

/-- Embeds `series.rolling(window=w).mean()` at row `i`: defined once `i ≥ w - 1`
(for `w ≥ 1`), the arithmetic mean of entries `i - w + 1 .. i`; NaN before. -/
def smaAt (closes : List ℚ) (w : ℕ) (i : ℕ) : Option ℚ :=
  if 0 < w ∧ w ≤ i + 1 then
    some (((closes.drop (i + 1 - w)).take w).sum / (w : ℚ))
  else
    none

/-- The `signal` column of `MACrossoverStrategy.generate_signals`:
initialised to 0, set to 1 where `SMA_short > SMA_long` and to −1 where
`SMA_short < SMA_long`; a comparison against NaN is False in pandas, so a
row where either SMA is undefined keeps 0. -/
def maSignal (short long : ℕ) (closes : List ℚ) (i : ℕ) : ℤ :=
  match smaAt closes short i, smaAt closes long i with
  | some a, some b => if b < a then 1 else if a < b then -1 else 0
  | _, _ => 0

/-- Embeds `MACrossoverStrategy.generate_signals`.  The emission filter is
`df['signal'].diff() != 0`; `diff()` is NaN at row 0 and in pandas
`NaN != 0` is True, so row 0 passes the filter whenever the frame is
nonempty — hence the `i = 0 ∨ ...` disjunct.  The emitted action is
`'BUY' if row['signal'] == 1 else 'SELL'`. -/
def maCrossoverSignals (short long : ℕ) (bars : List Bar) : List Signal :=
  let closes := bars.map (fun b => b.close)
  (List.range bars.length).filterMap (fun i =>
    if i = 0 ∨ maSignal short long closes i ≠ maSignal short long closes (i - 1) then
      bars[i]?.map (fun b =>
        { timestamp := b.timestamp
          price := b.close
          action := if maSignal short long closes i = 1 then Action.buy else Action.sell
          indicator := s!"Short MA: {fmtOpt (smaAt closes short i)}, Long MA: {fmtOpt (smaAt closes long i)}" })
    else none)

/-- Python `str.upper()` as applied to the combination-method string. -/
def pyUpper (s : String) : String := ⟨s.data.map Char.toUpper⟩

/-- Embeds `MACDStrategy.validate_parameters`: `true` iff the constructor does not
raise.  Periods are integers by type (the source's `isinstance(..., int)`
guard), the threshold is numeric by type; the remaining checks are that all
three periods are positive and `fast_period < slow_period`. -/
def macdParamsValid (fastPeriod slowPeriod signalPeriod : ℤ) (_histogramThreshold : ℚ) : Bool :=
  decide (0 < fastPeriod) && decide (0 < slowPeriod) && decide (0 < signalPeriod) &&
    decide (fastPeriod < slowPeriod)

/-- Embeds `BollingerBandsStrategy.validate_parameters`: `true` iff the constructor
does not raise: both periods positive integers, both multipliers positive. -/
def bollingerParamsValid (period atrPeriod : ℤ) (stdDev atrMultiplier : ℚ) : Bool :=
  decide (0 < period) && decide (0 < atrPeriod) && decide (0 < stdDev) &&
    decide (0 < atrMultiplier)

/-- Embeds `CombinedStrategy.validate_parameters`: `true` iff the constructor does
not raise: at least two sub-strategies (`not strategies or len(...) < 2`
raises) and `combination_method.upper()` is `'AND'` or `'OR'`. -/
def combinedParamsValid (numStrategies : ℕ) (combinationMethod : String) : Bool :=
  decide (2 ≤ numStrategies) &&
    (pyUpper combinationMethod == "AND" || pyUpper combinationMethod == "OR")

/-- Trade record type tag, `'ENTRY'` / `'EXIT'` in the source. -/
inductive TradeType where
  | entry
  | exit
deriving DecidableEq, Repr

/-- A trade dict appended to `self.trades`; `pnl` is present only on EXIT
records (`t.get('pnl')` is `None` on ENTRY records). -/
structure Trade where
  type : TradeType
  time : ℕ
  price : ℚ
  size : ℚ
  portfolioValue : ℚ
  pnl : Option ℚ
deriving DecidableEq, Repr

/-- One entry of `self.portfolio_value`. -/
structure Snapshot where
  timestamp : ℕ
  value : ℚ
deriving DecidableEq, Repr

/-- The mutable replay variables of `Backtester.run` (`capital`, `position`,
`entry_price`) together with the instance-level accumulating logs
(`self.trades`, `self.portfolio_value`). -/
structure RunState where
  capital : ℚ
  position : ℚ
  entryPrice : ℚ
  trades : List Trade
  portfolio : List Snapshot
deriving DecidableEq, Repr

/-- The instance state of a `Backtester` that `run` reads and mutates:
`self.trades` and `self.portfolio_value` (both `[]` on a fresh instance). -/
structure BTState where
  trades : List Trade
  portfolio : List Snapshot
deriving DecidableEq, Repr

/-- A fresh `Backtester`'s logs. -/
def freshBT : BTState := { trades := [], portfolio := [] }

/-- The body of the `for signal in current_signals` loop of
`Backtester.run`: a BUY while flat converts all capital into units at the
current close and records an ENTRY trade; a SELL while holding liquidates at
the current close and records an EXIT trade with
`pnl = (current_price - entry_price) * position`; anything else falls
through with no effect. -/
def applySignal (price : ℚ) (time : ℕ) (rs : RunState) (s : Signal) : RunState :=
  if s.action = Action.buy ∧ rs.position = 0 then
    { rs with
      position := rs.capital / price
      entryPrice := price
      trades := rs.trades ++
        [{ type := TradeType.entry, time := time, price := price,
           size := rs.capital / price,
           portfolioValue := rs.capital / price * price, pnl := none }] }
  else if s.action = Action.sell ∧ 0 < rs.position then
    { rs with
      capital := rs.position * price
      position := 0
      trades := rs.trades ++
        [{ type := TradeType.exit, time := time, price := price,
           size := rs.position, portfolioValue := rs.position * price,
           pnl := some ((price - rs.entryPrice) * rs.position) }] }
  else rs

/-- One iteration of the `for i in range(len(data))` loop of
`Backtester.run`: apply the signals whose timestamp equals the current
bar's, then append one portfolio snapshot (`capital` if flat, else
mark-to-market `position * current_price`). -/
def applyBar (signals : List Signal) (rs : RunState) (b : Bar) : RunState :=
  let rs1 := (signals.filter (fun s => s.timestamp == b.timestamp)).foldl
    (applySignal b.close b.timestamp) rs
  { rs1 with portfolio := rs1.portfolio ++
      [{ timestamp := b.timestamp
         value := if rs1.position = 0 then rs1.capital else rs1.position * b.close }] }

/-- The replay loop of `Backtester.run`:
`capital = self.initial_capital; position = 0; entry_price = 0` and then the
bar loop, starting from the instance's accumulated logs. -/
def replay (initialCapital : ℚ) (st : BTState) (bars : List Bar)
    (signals : List Signal) : RunState :=
  bars.foldl (applyBar signals)
    { capital := initialCapital, position := 0, entryPrice := 0,
      trades := st.trades, portfolio := st.portfolio }

/-- The reported Sharpe ratio, symbolically.  The float value the source
computes is `sqrt(252) * mean / std`; ℚ cannot hold `√252` or `√variance`,
so the finite case `val mean variance` stands for that value (determined by
the stored mean and sample variance of the excess returns), and the cases a
claim actually distinguishes — the `else 0` guard branch, NaN, and
±infinity — are explicit constructors. -/
inductive SharpeVal where
  | zero
  | val (mean variance : ℚ)
  | nan
  | posInf
  | negInf
deriving DecidableEq, Repr

/-- Embeds `series.pct_change()` without its leading NaN: entry `i` is
`(v[i+1] - v[i]) / v[i]`.  (The leading NaN slot is accounted for in
`sharpeOf`, whose guard counts the full column length.) -/
def pctChange (vs : List ℚ) : List ℚ :=
  (vs.zip vs.tail).map (fun p => (p.2 - p.1) / p.1)

/-- Arithmetic mean, `Series.mean()` over the non-NaN entries. -/
def listMean (l : List ℚ) : ℚ := l.sum / (l.length : ℚ)

/-- Sample variance (`Series.std()` is its square root; pandas default
`ddof=1`). -/
def listVarSample (l : List ℚ) : ℚ :=
  ((l.map (fun x => (x - listMean l) ^ 2)).sum) / ((l.length : ℚ) - 1)

/-- The per-bar risk-free rate `risk_free_rate / 252` with `risk_free_rate = 0.02`. -/
def riskFreePerBar : ℚ := (2 / 100) / 252

/-- The Sharpe computation of `Backtester.calculate_metrics`:
`np.sqrt(252) * excess_returns.mean() / excess_returns.std()` guarded by
`if len(excess_returns) > 1 else 0`.  `excess_returns` has one entry per
portfolio row (its first entry is the NaN of `pct_change`), so the guard
compares the number of portfolio rows — not the number of return
observations — against 1.  `std()` over fewer than 2 observations is NaN
(making the quotient NaN); `std() = 0` makes the float quotient ±inf for a
nonzero mean and NaN for a zero mean. -/
def sharpeOf (values : List ℚ) : SharpeVal :=
  if 1 < values.length then
    let obs := (pctChange values).map (fun r => r - riskFreePerBar)
    if obs.length < 2 then SharpeVal.nan
    else
      let m := listMean obs
      let v := listVarSample obs
      if v = 0 then
        if 0 < m then SharpeVal.posInf
        else if m < 0 then SharpeVal.negInf
        else SharpeVal.nan
      else SharpeVal.val m v
  else SharpeVal.zero

/-- Running maximum continuing from `m` (`Series.cummax()` after the head). -/
def cummaxFrom (m : ℚ) : List ℚ → List ℚ
  | [] => []
  | v :: rest => max m v :: cummaxFrom (max m v) rest

/-- Embeds `Series.cummax()`. -/
def cummaxes : List ℚ → List ℚ
  | [] => []
  | v :: rest => cummaxFrom v (v :: rest)

/-- Embeds `max_drawdown` before the `* 100` scaling:
`((cummax - value) / cummax).max()`.  The `[]` case is unreachable in
`calculateMetrics` (it is guarded by the empty-portfolio early return). -/
def maxDrawdownOf (vs : List ℚ) : ℚ :=
  let dds := ((cummaxes vs).zip vs).map (fun p => (p.1 - p.2) / p.1)
  match dds with
  | [] => 0
  | d :: rest => rest.foldl max d

/-- The dict returned by `Backtester.calculate_metrics`. -/
structure Metrics where
  totalReturn : ℚ
  sharpeRatio : SharpeVal
  maxDrawdown : ℚ
  winRate : ℚ
  totalTrades : ℕ
deriving DecidableEq, Repr

/-- The all-zero metrics dict returned when `self.portfolio_value` is empty. -/
def zeroMetrics : Metrics :=
  { totalReturn := 0, sharpeRatio := SharpeVal.zero, maxDrawdown := 0,
    winRate := 0, totalTrades := 0 }

/-- Embeds `Backtester.calculate_metrics` over the accumulated trade ledger and
portfolio-value log. -/
def calculateMetrics (initialCapital : ℚ) (trades : List Trade)
    (portfolio : List Snapshot) : Metrics :=
  match portfolio with
  | [] => zeroMetrics
  | _ :: _ =>
    let values := portfolio.map (fun s => s.value)
    let profitable := (trades.filter (fun t => decide (0 < t.pnl.getD 0))).length
    let totalTrades := (trades.filter (fun t => t.pnl.isSome)).length
    let winRate : ℚ :=
      if 0 < totalTrades then (profitable : ℚ) / (totalTrades : ℚ) else 0
    { totalReturn := (values.getLastD 0 - initialCapital) / initialCapital * 100
      sharpeRatio := sharpeOf values
      maxDrawdown := maxDrawdownOf values * 100
      winRate := winRate * 100
      totalTrades := totalTrades }

/-- Embeds `Backtester.run` with the instance state made explicit: replays the
bars, mutating the accumulated logs, and returns the metrics over the
accumulated (not per-call) logs together with the updated instance state.
The signal list is a parameter (the single `self.strategy.generate_signals`
call of step 1). -/
def run (initialCapital : ℚ) (st : BTState) (bars : List Bar)
    (signals : List Signal) : Metrics × BTState :=
  let rs := replay initialCapital st bars signals
  (calculateMetrics initialCapital rs.trades rs.portfolio,
   { trades := rs.trades, portfolio := rs.portfolio })

/-- Combination method of `CombinedStrategy` after `.upper()`
normalisation. -/
inductive Method where
  | AND
  | OR
deriving DecidableEq, Repr

/-- Lookup in the per-strategy dict `{signal['timestamp']: signal}`: a dict
comprehension keeps the last signal written under each key. -/
def lastAt (l : List Signal) (ts : ℕ) : Option Signal :=
  (l.filter (fun s => s.timestamp == ts)).getLast?

/-- Embeds `sorted(set().union(*(s.keys() for s in strategy_signals)))`. -/
def signalTimestamps (subSignals : List (List Signal)) : List ℕ :=
  ((subSignals.map (fun l => l.map (fun s => s.timestamp))).flatten.dedup).mergeSort
    (fun a b => decide (a ≤ b))

/-- Embeds `len(set(s['action'] for s in signals_at_timestamp)) == 1`. -/
def actionsAgree (l : List Signal) : Bool :=
  (l.map (fun s => s.action)).dedup.length == 1

/-- Embeds `' | '.join(s['indicator'] for s in signals_at_timestamp)`. -/
def joinIndicators (l : List Signal) : String :=
  String.intercalate " | " (l.map (fun s => s.indicator))

/-- The body of the `for timestamp in all_timestamps` loop of
`CombinedStrategy.generate_signals`: collect the sub-strategies' signals
present at this timestamp; under AND emit the first one (with concatenated
indicator text) iff every sub-strategy is present and all actions agree;
under OR emit the first one present, if any (`continue` on an empty
collection). -/
def combineAt (method : Method) (subSignals : List (List Signal)) (ts : ℕ) :
    Option Signal :=
  let atTs := subSignals.filterMap (fun l => lastAt l ts)
  match method with
  | Method.AND =>
    if atTs.length = subSignals.length ∧ actionsAgree atTs then
      atTs.head?.map (fun s => { s with indicator := joinIndicators atTs })
    else none
  | Method.OR =>
    atTs.head?.map (fun s => { s with indicator := joinIndicators atTs })

/-- Embeds `CombinedStrategy.generate_signals`, as a function of the sub-strategy
signal lists (each sub-strategy is run independently over the full series;
the claims quantify over the lists they produce). -/
def combinedSignals (method : Method) (subSignals : List (List Signal)) :
    List Signal :=
  (signalTimestamps subSignals).filterMap (combineAt method subSignals)

/-- A 5-bar series with constant close 5 (spec Scenario A's flat series). -/
def flatBars5 : List Bar :=
  [⟨0, 5⟩, ⟨1, 5⟩, ⟨2, 5⟩, ⟨3, 5⟩, ⟨4, 5⟩]

/-- A 2-bar series with constant close 10: exactly one return observation. -/
def constBars2 : List Bar := [⟨0, 10⟩, ⟨1, 10⟩]

/-- A 3-bar series with constant close 10: two return observations of zero,
hence zero-variance excess returns. -/
def constBars3 : List Bar := [⟨0, 10⟩, ⟨1, 10⟩, ⟨2, 10⟩]

/-- A single bar with a negative close (the data model of the spec allows
any real close). -/
def negBar : List Bar := [⟨0, -5⟩]

/-- A BUY signal at the negative-close bar. -/
def negBuySignal : List Signal := [⟨0, -5, Action.buy, "b"⟩]

/-- Two single-signal sub-strategy outputs that agree (both BUY at
timestamp 1), used as the concrete witness input for the Combined-AND
characterisation. -/
def subsW : List (List Signal) :=
  [[⟨1, 5, Action.buy, "A"⟩], [⟨1, 6, Action.buy, "B"⟩]]

/-- C5: on an empty input bar series, `Backtester.run` (on a fresh instance)
raises no exception — the embedded replay is a total function — and returns
`total_return = 0`, `sharpe_ratio = 0`, `max_drawdown = 0`, `win_rate = 0`
and `total_trades = 0`, whatever the strategy's signal list and the initial
capital are. -/
theorem run_empty_series_zero_metrics (initialCapital : ℚ) (signals : List Signal) :
    run initialCapital freshBT [] signals = (zeroMetrics, freshBT) := by
  rfl

/-- C10: a protocol-violating signal is silently ignored: a SELL while the
position is flat (0 units) or a BUY while a position is already open
(positive units) leaves the whole replay state — capital, position, entry
price, trade ledger and portfolio log — unchanged. -/
theorem applySignal_ignores_protocol_violations (price : ℚ) (time : ℕ)
    (rs : RunState) (s : Signal)
    (h : (s.action = Action.sell ∧ rs.position = 0) ∨
         (s.action = Action.buy ∧ 0 < rs.position)) :
    applySignal price time rs s = rs := by
  unfold applySignal
  split_ifs with h1 h2
  · rcases h with ⟨ha, hp⟩ | ⟨ha, hp⟩
    · simp [ha] at h1
    · exact absurd h1.2 (ne_of_gt hp)
  · rcases h with ⟨ha, hp⟩ | ⟨ha, hp⟩
    · rw [hp] at h2
      exact absurd h2.2 (lt_irrefl 0)
    · simp [ha] at h2
  · rfl

/-- Witness for C10 at a concrete input: a SELL arriving on a fresh (flat)
replay state is a no-op. -/
theorem applySignal_ignores_protocol_violations_witness :
    ((Action.sell = Action.sell ∧ ((⟨10000, 0, 0, [], []⟩ : RunState)).position = 0) ∨
      (Action.sell = Action.buy ∧ 0 < ((⟨10000, 0, 0, [], []⟩ : RunState)).position)) ∧
    applySignal 10 0 ⟨10000, 0, 0, [], []⟩ ⟨0, 10, Action.sell, ""⟩ =
      ⟨10000, 0, 0, [], []⟩ :=
  ⟨Or.inl ⟨rfl, rfl⟩,
   applySignal_ignores_protocol_violations 10 0 ⟨10000, 0, 0, [], []⟩
     ⟨0, 10, Action.sell, ""⟩ (Or.inl ⟨rfl, rfl⟩)⟩

/-- C1 (failing evaluation): on the 5-bar flat series, MA-Crossover's
`generate_signals` returns exactly one signal and its action is SELL — the
first emitted signal is not a BUY, because the NaN produced by
`df['signal'].diff()` at row 0 passes the `!= 0` emission filter while the
`signal` value there is 0, which maps to `'SELL'`. -/
theorem ma_crossover_flat_series_first_signal_is_sell :
    (maCrossoverSignals 2 3 flatBars5).map (fun s => s.action) = [Action.sell] := by
  have h0 : maSignal 2 3 [5, 5, 5, 5, 5] 0 = 0 := by norm_num [maSignal, smaAt]
  have h1 : maSignal 2 3 [5, 5, 5, 5, 5] 1 = 0 := by norm_num [maSignal, smaAt]
  have h2 : maSignal 2 3 [5, 5, 5, 5, 5] 2 = 0 := by norm_num [maSignal, smaAt]
  have h3 : maSignal 2 3 [5, 5, 5, 5, 5] 3 = 0 := by norm_num [maSignal, smaAt]
  have h4 : maSignal 2 3 [5, 5, 5, 5, 5] 4 = 0 := by norm_num [maSignal, smaAt]
  simp [maCrossoverSignals, flatBars5, h0, h1, h2, h3, h4, List.filterMap]

/-- C7 (failing evaluation): on the 5-bar flat series (spec Scenario A,
which demands zero signals), MA-Crossover emits one signal, at row 0, an
index at which neither the short nor the long SMA is defined — so the
emission is not at a signal-value change and precedes both SMAs being
defined. -/
theorem ma_crossover_flat_series_emits_at_row_zero :
    (maCrossoverSignals 2 3 flatBars5).length = 1 ∧
    (maCrossoverSignals 2 3 flatBars5).head?.map (fun s => s.timestamp) = some 0 ∧
    smaAt (flatBars5.map (fun b => b.close)) 2 0 = none ∧
    smaAt (flatBars5.map (fun b => b.close)) 3 0 = none := by
  have h0 : maSignal 2 3 [5, 5, 5, 5, 5] 0 = 0 := by norm_num [maSignal, smaAt]
  have h1 : maSignal 2 3 [5, 5, 5, 5, 5] 1 = 0 := by norm_num [maSignal, smaAt]
  have h2 : maSignal 2 3 [5, 5, 5, 5, 5] 2 = 0 := by norm_num [maSignal, smaAt]
  have h3 : maSignal 2 3 [5, 5, 5, 5, 5] 3 = 0 := by norm_num [maSignal, smaAt]
  have h4 : maSignal 2 3 [5, 5, 5, 5, 5] 4 = 0 := by norm_num [maSignal, smaAt]
  refine ⟨?_, ?_, ?_, ?_⟩
  · simp [maCrossoverSignals, flatBars5, h0, h1, h2, h3, h4, List.filterMap]
  · simp [maCrossoverSignals, flatBars5, h0, h1, h2, h3, h4, List.filterMap]
  · norm_num [flatBars5, smaAt]
  · norm_num [flatBars5, smaAt]

/-- C2 (failing evaluation): on a 2-bar series there is exactly one return
observation (fewer than 2), yet the code's `len(excess_returns) > 1` guard
counts the 2 portfolio rows and computes `mean/std`, whose sample standard
deviation over one observation is NaN — the reported Sharpe ratio is NaN,
not the sentinel 0; and on a 3-bar constant series the excess returns have
zero variance and negative mean, so the reported Sharpe ratio is −∞, not
the sentinel 0. -/
theorem sharpe_ratio_nan_and_neg_inf_on_const_series :
    (run 10000 freshBT constBars2 []).1.sharpeRatio = SharpeVal.nan ∧
    (run 10000 freshBT constBars3 []).1.sharpeRatio = SharpeVal.negInf := by
  constructor
  · norm_num [run, replay, applyBar, applySignal, calculateMetrics, sharpeOf,
      pctChange, listMean, listVarSample, riskFreePerBar, constBars2, freshBT,
      List.filter]
  · norm_num [run, replay, applyBar, applySignal, calculateMetrics, sharpeOf,
      pctChange, listMean, listVarSample, riskFreePerBar, constBars3, freshBT,
      List.filter]

/-- C8 (counterexample): a BUY at a bar whose close is negative (the spec's
data model allows any real close) makes `position = capital / price`
negative: the internal position state of the replay is Short, refuting the
claim for arbitrary input series. -/
theorem position_negative_on_negative_close :
    (replay 10000 freshBT negBar negBuySignal).position < 0 := by
  norm_num [replay, applyBar, applySignal, negBar, negBuySignal, freshBT,
    List.filter]

/-- C6 (counterexample): constructing a Combined strategy with two
sub-strategies and method `"and"` succeeds — the validator upper-cases the
method before the membership test — although `"and"` is outside
`{AND, OR}`, so construction does not fail exactly on methods outside
`{AND, OR}`. -/
theorem combined_method_case_insensitive_counterexample :
    combinedParamsValid 2 "and" = true ∧
    ("and" : String) ≠ "AND" ∧ ("and" : String) ≠ "OR" :=
  ⟨by decide, by decide, by decide⟩

/-- C6 (amended): strategy construction succeeds exactly when parameters
are valid — MACD: all periods positive and `fast_period < slow_period`;
Bollinger-Bands: both periods and both multipliers positive; Combined: at
least 2 sub-strategies and a method whose upper-cased form is `"AND"` or
`"OR"`.  Equivalently, it fails exactly on the complements, before any data
is processed, and valid parameters never raise. -/
theorem params_validation_characterization :
    (∀ fastPeriod slowPeriod signalPeriod : ℤ, ∀ thr : ℚ,
      macdParamsValid fastPeriod slowPeriod signalPeriod thr = true ↔
        (0 < fastPeriod ∧ 0 < slowPeriod ∧ 0 < signalPeriod ∧
          fastPeriod < slowPeriod)) ∧
    (∀ period atrPeriod : ℤ, ∀ stdDev atrMultiplier : ℚ,
      bollingerParamsValid period atrPeriod stdDev atrMultiplier = true ↔
        (0 < period ∧ 0 < atrPeriod ∧ 0 < stdDev ∧ 0 < atrMultiplier)) ∧
    (∀ n : ℕ, ∀ m : String,
      combinedParamsValid n m = true ↔
        (2 ≤ n ∧ (pyUpper m = "AND" ∨ pyUpper m = "OR"))) := by
  refine ⟨?_, ?_, ?_⟩
  · intro f s g thr
    simp [macdParamsValid, and_assoc]
  · intro p a sd am
    simp [bollingerParamsValid, and_assoc]
  · intro n m
    simp [combinedParamsValid, and_assoc]

/-- Single signal application preserves positive capital and nonnegative
position when the bar's close is positive. -/
theorem applySignal_pos (p : ℚ) (t : ℕ) (s : Signal) (rs : RunState)
    (hp : 0 < p) (hcap : 0 < rs.capital) (hpos : 0 ≤ rs.position) :
    0 < (applySignal p t rs s).capital ∧ 0 ≤ (applySignal p t rs s).position := by
  unfold applySignal
  split_ifs with h1 h2
  · exact ⟨hcap, le_of_lt (div_pos hcap hp)⟩
  · exact ⟨mul_pos h2.2 hp, le_refl 0⟩
  · exact ⟨hcap, hpos⟩

/-- The within-bar signal loop preserves positive capital and nonnegative
position. -/
theorem foldl_applySignal_pos (p : ℚ) (t : ℕ) (hp : 0 < p) :
    ∀ (l : List Signal) (rs : RunState), 0 < rs.capital → 0 ≤ rs.position →
      0 < (l.foldl (applySignal p t) rs).capital ∧
      0 ≤ (l.foldl (applySignal p t) rs).position
  | [], rs, hc, hpos => ⟨hc, hpos⟩
  | s :: rest, rs, hc, hpos => by
      have h := applySignal_pos p t s rs hp hc hpos
      simpa using foldl_applySignal_pos p t hp rest (applySignal p t rs s) h.1 h.2

/-- One bar iteration preserves positive capital and nonnegative position
when the bar's close is positive. -/
theorem applyBar_pos (sigs : List Signal) (b : Bar) (rs : RunState)
    (hb : 0 < b.close) (hc : 0 < rs.capital) (hpos : 0 ≤ rs.position) :
    0 < (applyBar sigs rs b).capital ∧ 0 ≤ (applyBar sigs rs b).position := by
  have h := foldl_applySignal_pos b.close b.timestamp hb
    (sigs.filter (fun s => s.timestamp == b.timestamp)) rs hc hpos
  simpa [applyBar] using h

/-- The bar loop preserves positive capital and nonnegative position over
bars with positive closes. -/
theorem foldl_applyBar_pos (sigs : List Signal) :
    ∀ (bars : List Bar) (rs : RunState), (∀ b ∈ bars, 0 < b.close) →
      0 < rs.capital → 0 ≤ rs.position →
      0 < (bars.foldl (applyBar sigs) rs).capital ∧
      0 ≤ (bars.foldl (applyBar sigs) rs).position
  | [], rs, _, hc, hpos => ⟨hc, hpos⟩
  | b :: rest, rs, hb, hc, hpos => by
      have h := applyBar_pos sigs b rs (hb b (by simp)) hc hpos
      have hrest : ∀ x ∈ rest, 0 < x.close := fun x hx => hb x (by simp [hx])
      simpa using foldl_applyBar_pos sigs rest (applyBar sigs rs b) hrest h.1 h.2

/-- C8 (amended): provided the initial capital is positive (the constructor
contract) and every close price in the series is positive, the internal
position is never negative at any point of the replay: every single signal
application preserves nonnegativity of the position (and positivity of the
idle capital), and after replaying any prefix of the bar series the
position is nonnegative — so the state is always Flat (0) or Long
(positive units), never Short. -/
theorem position_never_short_under_positive_closes (init : ℚ) (st : BTState)
    (bars : List Bar) (sigs : List Signal) (h0 : 0 < init)
    (hc : ∀ b ∈ bars, 0 < b.close) :
    (∀ (p : ℚ) (t : ℕ) (s : Signal) (rs : RunState),
      0 < p → 0 < rs.capital → 0 ≤ rs.position →
        0 < (applySignal p t rs s).capital ∧
        0 ≤ (applySignal p t rs s).position) ∧
    (∀ pre, pre <+: bars → 0 ≤ (replay init st pre sigs).position) := by
  refine ⟨applySignal_pos, ?_⟩
  intro pre hpre
  have hp : ∀ b ∈ pre, 0 < b.close := fun b hb => hc b (hpre.subset hb)
  exact (foldl_applyBar_pos sigs pre _ hp h0 le_rfl).2

/-- Witness for the amended C8 at a concrete input. -/
theorem position_never_short_under_positive_closes_witness :
    (0 < (10000 : ℚ)) ∧ (∀ b ∈ ([⟨0, 10⟩] : List Bar), 0 < b.close) ∧
    ((∀ (p : ℚ) (t : ℕ) (s : Signal) (rs : RunState),
      0 < p → 0 < rs.capital → 0 ≤ rs.position →
        0 < (applySignal p t rs s).capital ∧
        0 ≤ (applySignal p t rs s).position) ∧
    (∀ pre, pre <+: ([⟨0, 10⟩] : List Bar) →
      0 ≤ (replay 10000 freshBT pre []).position)) :=
  ⟨by norm_num, by
      intro b hb
      simp only [List.mem_singleton] at hb
      subst hb
      norm_num,
    position_never_short_under_positive_closes 10000 freshBT [⟨0, 10⟩] []
      (by norm_num) (by
        intro b hb
        simp only [List.mem_singleton] at hb
        subst hb
        norm_num)⟩

/-- Single signal application only appends to the accumulated logs: starting
it from logs with a prefix prepended yields the same state with the prefix
still prepended. -/
theorem applySignal_shift (p : ℚ) (t : ℕ) (s : Signal) (c pos e : ℚ)
    (tr0 tr : List Trade) (pf0 pf : List Snapshot) :
    applySignal p t ⟨c, pos, e, tr0 ++ tr, pf0 ++ pf⟩ s =
      { applySignal p t ⟨c, pos, e, tr, pf⟩ s with
        trades := tr0 ++ (applySignal p t ⟨c, pos, e, tr, pf⟩ s).trades,
        portfolio := pf0 ++ (applySignal p t ⟨c, pos, e, tr, pf⟩ s).portfolio } := by
  unfold applySignal
  split_ifs <;> simp

/-- The within-bar signal loop only appends to the accumulated logs. -/
theorem foldl_applySignal_shift (p : ℚ) (t : ℕ) :
    ∀ (l : List Signal) (c pos e : ℚ) (tr0 tr : List Trade)
      (pf0 pf : List Snapshot),
      l.foldl (applySignal p t) ⟨c, pos, e, tr0 ++ tr, pf0 ++ pf⟩ =
        { l.foldl (applySignal p t) ⟨c, pos, e, tr, pf⟩ with
          trades := tr0 ++ (l.foldl (applySignal p t) ⟨c, pos, e, tr, pf⟩).trades,
          portfolio :=
            pf0 ++ (l.foldl (applySignal p t) ⟨c, pos, e, tr, pf⟩).portfolio }
  | [], c, pos, e, tr0, tr, pf0, pf => rfl
  | s :: rest, c, pos, e, tr0, tr, pf0, pf => by
      simp only [List.foldl_cons, applySignal_shift]
      exact foldl_applySignal_shift p t rest _ _ _ tr0 _ pf0 _

/-- One bar iteration only appends to the accumulated logs. -/
theorem applyBar_shift (sigs : List Signal) (b : Bar) (c pos e : ℚ)
    (tr0 tr : List Trade) (pf0 pf : List Snapshot) :
    applyBar sigs ⟨c, pos, e, tr0 ++ tr, pf0 ++ pf⟩ b =
      { applyBar sigs ⟨c, pos, e, tr, pf⟩ b with
        trades := tr0 ++ (applyBar sigs ⟨c, pos, e, tr, pf⟩ b).trades,
        portfolio := pf0 ++ (applyBar sigs ⟨c, pos, e, tr, pf⟩ b).portfolio } := by
  simp only [applyBar, foldl_applySignal_shift]
  simp

/-- The bar loop only appends to the accumulated logs. -/
theorem foldl_applyBar_shift (sigs : List Signal) :
    ∀ (bars : List Bar) (c pos e : ℚ) (tr0 tr : List Trade)
      (pf0 pf : List Snapshot),
      bars.foldl (applyBar sigs) ⟨c, pos, e, tr0 ++ tr, pf0 ++ pf⟩ =
        { bars.foldl (applyBar sigs) ⟨c, pos, e, tr, pf⟩ with
          trades := tr0 ++ (bars.foldl (applyBar sigs) ⟨c, pos, e, tr, pf⟩).trades,
          portfolio :=
            pf0 ++ (bars.foldl (applyBar sigs) ⟨c, pos, e, tr, pf⟩).portfolio }
  | [], c, pos, e, tr0, tr, pf0, pf => rfl
  | b :: rest, c, pos, e, tr0, tr, pf0, pf => by
      simp only [List.foldl_cons, applyBar_shift]
      exact foldl_applyBar_shift sigs rest _ _ _ tr0 _ pf0 _

/-- A replay started from accumulated instance state produces the fresh
replay's logs appended after the accumulated ones (the replay variables
themselves restart from `initial_capital` each call). -/
theorem replay_accumulates (init : ℚ) (st : BTState) (bars : List Bar)
    (sigs : List Signal) :
    replay init st bars sigs =
      { replay init freshBT bars sigs with
        trades := st.trades ++ (replay init freshBT bars sigs).trades,
        portfolio := st.portfolio ++ (replay init freshBT bars sigs).portfolio } := by
  have h := foldl_applyBar_shift sigs bars init 0 0 st.trades [] st.portfolio []
  simpa [replay, freshBT] using h

/-- C9: `run` mutates instance state rather than starting fresh: a second
`run` on the same instance appends the second run's trades and per-bar
snapshots to the first run's, and the metrics it returns are computed over
the concatenation of both runs' ledgers and trajectories, not over the
second run alone. -/
theorem run_accumulates_across_calls (init : ℚ) (bars1 bars2 : List Bar)
    (sigs1 sigs2 : List Signal) :
    (run init (run init freshBT bars1 sigs1).2 bars2 sigs2).2.trades =
      (run init freshBT bars1 sigs1).2.trades ++
        (run init freshBT bars2 sigs2).2.trades ∧
    (run init (run init freshBT bars1 sigs1).2 bars2 sigs2).2.portfolio =
      (run init freshBT bars1 sigs1).2.portfolio ++
        (run init freshBT bars2 sigs2).2.portfolio ∧
    (run init (run init freshBT bars1 sigs1).2 bars2 sigs2).1 =
      calculateMetrics init
        ((run init freshBT bars1 sigs1).2.trades ++
          (run init freshBT bars2 sigs2).2.trades)
        ((run init freshBT bars1 sigs1).2.portfolio ++
          (run init freshBT bars2 sigs2).2.portfolio) := by
  have h := replay_accumulates init
    ⟨(replay init freshBT bars1 sigs1).trades,
     (replay init freshBT bars1 sigs1).portfolio⟩ bars2 sigs2
  refine ⟨?_, ?_, ?_⟩ <;> simp [run, h]

/-- C3 (Scenario C): on a 10-bar series whose signal stream is exactly one
BUY at bar 2 and one SELL at bar 8, with `initial_capital = 10000` and a
positive entry close, `run` records an ENTRY trade of size
`10000 / price[2]` and an EXIT trade with
`pnl = (price[8] - price[2]) * size`, and reports `total_trades = 1` and
`win_rate = 100` if `price[8] > price[2]`, else `0`.  (The signal dicts'
own `price`/`indicator` fields are irrelevant to the replay, which trades
at the bar's close.) -/
theorem scenario_c_single_round_trip (c0 c1 c2 c3 c4 c5 c6 c7 c8 c9 : ℚ)
    (pB pS : ℚ) (iB iS : String) (h2 : 0 < c2) :
    (run 10000 freshBT
        [⟨0, c0⟩, ⟨1, c1⟩, ⟨2, c2⟩, ⟨3, c3⟩, ⟨4, c4⟩,
         ⟨5, c5⟩, ⟨6, c6⟩, ⟨7, c7⟩, ⟨8, c8⟩, ⟨9, c9⟩]
        [⟨2, pB, Action.buy, iB⟩, ⟨8, pS, Action.sell, iS⟩]).2.trades =
      [⟨TradeType.entry, 2, c2, 10000 / c2, 10000, none⟩,
       ⟨TradeType.exit, 8, c8, 10000 / c2, 10000 / c2 * c8,
        some ((c8 - c2) * (10000 / c2))⟩] ∧
    (run 10000 freshBT
        [⟨0, c0⟩, ⟨1, c1⟩, ⟨2, c2⟩, ⟨3, c3⟩, ⟨4, c4⟩,
         ⟨5, c5⟩, ⟨6, c6⟩, ⟨7, c7⟩, ⟨8, c8⟩, ⟨9, c9⟩]
        [⟨2, pB, Action.buy, iB⟩, ⟨8, pS, Action.sell, iS⟩]).1.totalTrades = 1 ∧
    (run 10000 freshBT
        [⟨0, c0⟩, ⟨1, c1⟩, ⟨2, c2⟩, ⟨3, c3⟩, ⟨4, c4⟩,
         ⟨5, c5⟩, ⟨6, c6⟩, ⟨7, c7⟩, ⟨8, c8⟩, ⟨9, c9⟩]
        [⟨2, pB, Action.buy, iB⟩, ⟨8, pS, Action.sell, iS⟩]).1.winRate =
      if c2 < c8 then 100 else 0 := by
  have hpos : 0 < 10000 / c2 := div_pos (by norm_num) h2
  have hne : 10000 / c2 ≠ 0 := ne_of_gt hpos
  have hcan : 10000 / c2 * c2 = 10000 := div_mul_cancel₀ 10000 (ne_of_gt h2)
  refine ⟨?_, ?_, ?_⟩
  · simp [run, replay, applyBar, applySignal, List.filter, freshBT, hpos, hne, hcan]
  · simp [run, replay, applyBar, applySignal, List.filter, freshBT, hpos, hne, hcan,
      calculateMetrics]
  · rcases lt_or_le c2 c8 with hlt | hle
    · have hpnl : 0 < (c8 - c2) * (10000 / c2) :=
        mul_pos (sub_pos.mpr hlt) hpos
      simp [run, replay, applyBar, applySignal, List.filter, freshBT, hpos, hne,
        hcan, calculateMetrics, hpnl, hlt]
    · have hpnl : ¬ 0 < (c8 - c2) * (10000 / c2) :=
        not_lt.mpr (mul_nonpos_iff.mpr (Or.inr ⟨sub_nonpos.mpr hle, le_of_lt hpos⟩))
      simp [run, replay, applyBar, applySignal, List.filter, freshBT, hpos, hne,
        hcan, calculateMetrics, hpnl, not_lt.mpr hle]

/-- Witness for C3 at concrete closes 1..10: entry at close 3, exit at
close 9. -/
theorem scenario_c_single_round_trip_witness :
    (0 < (3 : ℚ)) ∧
    ((run 10000 freshBT
        [⟨0, 1⟩, ⟨1, 2⟩, ⟨2, 3⟩, ⟨3, 4⟩, ⟨4, 5⟩,
         ⟨5, 6⟩, ⟨6, 7⟩, ⟨7, 8⟩, ⟨8, 9⟩, ⟨9, 10⟩]
        [⟨2, 3, Action.buy, "b"⟩, ⟨8, 9, Action.sell, "s"⟩]).2.trades =
      [⟨TradeType.entry, 2, 3, 10000 / 3, 10000, none⟩,
       ⟨TradeType.exit, 8, 9, 10000 / 3, 10000 / 3 * 9,
        some ((9 - 3) * (10000 / 3))⟩] ∧
    (run 10000 freshBT
        [⟨0, 1⟩, ⟨1, 2⟩, ⟨2, 3⟩, ⟨3, 4⟩, ⟨4, 5⟩,
         ⟨5, 6⟩, ⟨6, 7⟩, ⟨7, 8⟩, ⟨8, 9⟩, ⟨9, 10⟩]
        [⟨2, 3, Action.buy, "b"⟩, ⟨8, 9, Action.sell, "s"⟩]).1.totalTrades = 1 ∧
    (run 10000 freshBT
        [⟨0, 1⟩, ⟨1, 2⟩, ⟨2, 3⟩, ⟨3, 4⟩, ⟨4, 5⟩,
         ⟨5, 6⟩, ⟨6, 7⟩, ⟨7, 8⟩, ⟨8, 9⟩, ⟨9, 10⟩]
        [⟨2, 3, Action.buy, "b"⟩, ⟨8, 9, Action.sell, "s"⟩]).1.winRate =
      if (3 : ℚ) < 9 then 100 else 0) :=
  ⟨by norm_num,
   scenario_c_single_round_trip 1 2 3 4 5 6 7 8 9 10 3 9 "b" "s" (by norm_num)⟩

theorem lastAt_eq_some {l : List Signal} {ts : ℕ} {s : Signal}
    (h : lastAt l ts = some s) : s ∈ l ∧ s.timestamp = ts := by
  unfold lastAt at h
  rcases List.getLast?_eq_some_iff.mp h with ⟨ys, hys⟩
  have hmem : s ∈ l.filter (fun x => x.timestamp == ts) := by
    rw [hys]
    simp
  rcases List.mem_filter.mp hmem with ⟨h1, h2⟩
  exact ⟨h1, by simpa using h2⟩

theorem lastAt_isSome_iff {l : List Signal} {ts : ℕ} :
    (lastAt l ts).isSome ↔ ∃ s ∈ l, s.timestamp = ts := by
  unfold lastAt
  rw [List.getLast?_isSome]
  constructor
  · intro h
    rcases List.exists_mem_of_ne_nil _ h with ⟨s, hs⟩
    rcases List.mem_filter.mp hs with ⟨h1, h2⟩
    exact ⟨s, h1, by simpa using h2⟩
  · intro ⟨s, hs, hts⟩
    intro hnil
    have := List.filter_eq_nil_iff.mp hnil s hs
    simp [hts] at this

theorem filter_timestamp_of_nodup :
    ∀ (l : List Signal) (s : Signal) (ts : ℕ),
      (l.map (fun x => x.timestamp)).Nodup → s ∈ l → s.timestamp = ts →
      l.filter (fun x => x.timestamp == ts) = [s]
  | [], s, ts, _, hs, _ => absurd hs (List.not_mem_nil s)
  | a :: rest, s, ts, hnd, hs, hts => by
      have hnd1 : a.timestamp ∉ rest.map (fun x => x.timestamp) :=
        (List.nodup_cons.mp (by simpa using hnd)).1
      have hnd2 : (rest.map (fun x => x.timestamp)).Nodup :=
        (List.nodup_cons.mp (by simpa using hnd)).2
      rcases List.mem_cons.mp hs with rfl | hsrest
      · have hrest : rest.filter (fun x => x.timestamp == ts) = [] := by
          rw [List.filter_eq_nil_iff]
          intro x hx
          simp only [beq_iff_eq]
          intro hxts
          exact hnd1 (hts ▸ hxts ▸ List.mem_map_of_mem (fun y => y.timestamp) hx)
        simp [List.filter_cons, hts, hrest]
      · have hane : (a.timestamp == ts) = false := by
          simp only [beq_eq_false_iff_ne, ne_eq]
          intro hats
          exact hnd1 (by
            rw [hats, ← hts]
            exact List.mem_map_of_mem (fun y => y.timestamp) hsrest)
        simp [List.filter_cons, hane,
          filter_timestamp_of_nodup rest s ts hnd2 hsrest hts]

theorem lastAt_of_nodup {l : List Signal} {ts : ℕ} {s : Signal}
    (hnd : (l.map (fun x => x.timestamp)).Nodup) (hs : s ∈ l)
    (hts : s.timestamp = ts) : lastAt l ts = some s := by
  unfold lastAt
  rw [filter_timestamp_of_nodup l s ts hnd hs hts]
  rfl

theorem filterMap_length_eq_iff {α β : Type} (f : α → Option β) :
    ∀ l : List α, ((l.filterMap f).length = l.length ↔ ∀ x ∈ l, (f x).isSome)
  | [] => by simp
  | a :: rest => by
      rcases ha : f a with _ | b
      · simp only [List.filterMap_cons, ha]
        constructor
        · intro h
          exfalso
          have hle := List.length_filterMap_le f rest
          simp only [List.length_cons] at h
          omega
        · intro h
          have := h a (by simp)
          simp [ha] at this
      · simp only [List.filterMap_cons, ha, List.length_cons]
        constructor
        · intro h
          intro x hx
          rcases List.mem_cons.mp hx with rfl | hxr
          · simp [ha]
          · exact (filterMap_length_eq_iff f rest).mp (by omega) x hxr
        · intro h
          have := (filterMap_length_eq_iff f rest).mpr
            (fun x hx => h x (List.mem_cons_of_mem a hx))
          omega

theorem dedup_length_eq_one_iff {α : Type} [DecidableEq α] :
    ∀ l : List α, (l.dedup.length = 1 ↔ l ≠ [] ∧ ∀ a ∈ l, ∀ b ∈ l, a = b)
  | [] => by simp
  | a :: rest => by
      by_cases ha : a ∈ rest
      · rw [List.dedup_cons_of_mem ha]
        rw [dedup_length_eq_one_iff rest]
        constructor
        · rintro ⟨hne, hall⟩
          refine ⟨by simp, ?_⟩
          intro x hx y hy
          rcases List.mem_cons.mp hx with rfl | hxr
          · rcases List.mem_cons.mp hy with rfl | hyr
            · rfl
            · exact hall x ha y hyr
          · rcases List.mem_cons.mp hy with rfl | hyr
            · exact hall x hxr y ha
            · exact hall x hxr y hyr
        · rintro ⟨-, hall⟩
          refine ⟨by rintro rfl; exact absurd ha (List.not_mem_nil a), ?_⟩
          intro x hx y hy
          exact hall x (List.mem_cons_of_mem a hx) y (List.mem_cons_of_mem a hy)
      · rw [List.dedup_cons_of_not_mem ha]
        simp only [List.length_cons]
        constructor
        · intro h
          have h0 : rest.dedup.length = 0 := by omega
          have hrest : rest = [] :=
            (List.dedup_eq_nil rest).mp (List.length_eq_zero.mp h0)
          subst hrest
          exact ⟨by simp, by simp⟩
        · rintro ⟨-, hall⟩
          have hrest : rest = [] := by
            rcases hr : rest with _ | ⟨b, rest2⟩
            · rfl
            · exfalso
              apply ha
              have : a = b := hall a (by simp) b (by simp [hr])
              simp [hr, this]
          subst hrest
          simp

theorem actionsAgree_iff (l : List Signal) :
    actionsAgree l = true ↔ (l ≠ [] ∧ ∀ s1 ∈ l, ∀ s2 ∈ l, s1.action = s2.action) := by
  unfold actionsAgree
  rw [beq_iff_eq, dedup_length_eq_one_iff]
  constructor
  · rintro ⟨hne, hall⟩
    refine ⟨by simpa using hne, ?_⟩
    intro s1 h1 s2 h2
    exact hall s1.action (List.mem_map_of_mem _ h1) s2.action (List.mem_map_of_mem _ h2)
  · rintro ⟨hne, hall⟩
    refine ⟨by simpa using hne, ?_⟩
    intro x hx y hy
    rcases List.mem_map.mp hx with ⟨s1, h1, rfl⟩
    rcases List.mem_map.mp hy with ⟨s2, h2, rfl⟩
    exact hall s1 h1 s2 h2

theorem mem_signalTimestamps {subs : List (List Signal)} {ts : ℕ} :
    ts ∈ signalTimestamps subs ↔ ∃ l ∈ subs, ∃ s ∈ l, s.timestamp = ts := by
  unfold signalTimestamps
  rw [List.mem_mergeSort, List.mem_dedup, List.mem_flatten]
  constructor
  · rintro ⟨tl, htl, hts⟩
    rcases List.mem_map.mp htl with ⟨l, hl, rfl⟩
    rcases List.mem_map.mp hts with ⟨s, hs, rfl⟩
    exact ⟨l, hl, s, hs, rfl⟩
  · rintro ⟨l, hl, s, hs, rfl⟩
    exact ⟨l.map (fun x => x.timestamp), List.mem_map_of_mem _ hl,
      List.mem_map_of_mem _ hs⟩

/-- C4: for every Combined strategy with method AND (at least two
sub-strategies, each emitting at most one signal per timestamp since bar
timestamps are unique), a merged signal is emitted at a timestamp iff every
sub-strategy produced a signal at that timestamp and all their actions
agree; the merged signal carries the first sub-strategy's price and
timestamp and concatenates all sub-strategies' indicator texts with the
`" | "` separator; in particular two sub-strategies that never fire at the
same timestamp yield zero combined signals. -/
theorem combined_and_merge_characterization (subs : List (List Signal)) (hlen : 2 ≤ subs.length)
    (hnd : ∀ l ∈ subs, (l.map (fun s => s.timestamp)).Nodup) :
    (∀ ts : ℕ,
      (∃ m ∈ combinedSignals Method.AND subs, m.timestamp = ts) ↔
        ((∀ l ∈ subs, ∃ s ∈ l, s.timestamp = ts) ∧
         ∀ l1 ∈ subs, ∀ l2 ∈ subs, ∀ s1 ∈ l1, ∀ s2 ∈ l2,
           s1.timestamp = ts → s2.timestamp = ts → s1.action = s2.action)) ∧
    (∀ m ∈ combinedSignals Method.AND subs,
      ∃ l0 s0, subs.head? = some l0 ∧ s0 ∈ l0 ∧ s0.timestamp = m.timestamp ∧
        m.price = s0.price ∧
        m.indicator =
          joinIndicators (subs.filterMap (fun l => lastAt l m.timestamp))) ∧
    (∀ l1 l2, subs = [l1, l2] →
      (∀ s1 ∈ l1, ∀ s2 ∈ l2, s1.timestamp ≠ s2.timestamp) →
      combinedSignals Method.AND subs = []) := by
  have hsubne : subs ≠ [] := by
    intro h
    rw [h] at hlen
    simp at hlen
  have hmem : ∀ m, m ∈ combinedSignals Method.AND subs ↔
      ∃ ts, ts ∈ signalTimestamps subs ∧ combineAt Method.AND subs ts = some m := by
    intro m
    unfold combinedSignals
    exact List.mem_filterMap
  have hdec : ∀ ts m, combineAt Method.AND subs ts = some m →
      (subs.filterMap (fun l => lastAt l ts)).length = subs.length ∧
      actionsAgree (subs.filterMap (fun l => lastAt l ts)) = true ∧
      ∃ s0, (subs.filterMap (fun l => lastAt l ts)).head? = some s0 ∧
        m = { s0 with
          indicator := joinIndicators (subs.filterMap (fun l => lastAt l ts)) } := by
    intro ts m h
    simp only [combineAt] at h
    by_cases hc : ((subs.filterMap (fun l => lastAt l ts)).length = subs.length ∧
        actionsAgree (subs.filterMap (fun l => lastAt l ts)) = true)
    · rw [if_pos hc] at h
      rcases Option.map_eq_some'.mp h with ⟨s0, hs0, hm⟩
      exact ⟨hc.1, hc.2, s0, hs0, hm.symm⟩
    · rw [if_neg hc] at h
      cases h
  have hts_of : ∀ ts m, combineAt Method.AND subs ts = some m →
      m.timestamp = ts := by
    intro ts m h
    rcases hdec ts m h with ⟨-, -, s0, hhead, rfl⟩
    rcases List.head?_eq_some_iff.mp hhead with ⟨ys, hys⟩
    have hs0 : s0 ∈ subs.filterMap (fun l => lastAt l ts) := by
      rw [hys]
      simp
    rcases List.mem_filterMap.mp hs0 with ⟨l, hl, hlast⟩
    have := (lastAt_eq_some hlast).2
    simpa using this
  have parta : ∀ ts : ℕ,
      (∃ m ∈ combinedSignals Method.AND subs, m.timestamp = ts) ↔
        ((∀ l ∈ subs, ∃ s ∈ l, s.timestamp = ts) ∧
         ∀ l1 ∈ subs, ∀ l2 ∈ subs, ∀ s1 ∈ l1, ∀ s2 ∈ l2,
           s1.timestamp = ts → s2.timestamp = ts → s1.action = s2.action) := by
    intro ts
    constructor
    · rintro ⟨m, hm, hts⟩
      rcases (hmem m).mp hm with ⟨ts', hts', hco⟩
      have hmt : m.timestamp = ts' := hts_of ts' m hco
      have hee : ts' = ts := by rw [← hts, hmt]
      subst hee
      rcases hdec ts' m hco with ⟨hlenq, hagr, -⟩
      constructor
      · intro l hl
        have hsome : (lastAt l ts').isSome :=
          (filterMap_length_eq_iff _ subs).mp hlenq l hl
        exact lastAt_isSome_iff.mp hsome
      · intro l1 hl1 l2 hl2 s1 hs1 s2 hs2 h1ts h2ts
        have ha1 : lastAt l1 ts' = some s1 := lastAt_of_nodup (hnd l1 hl1) hs1 h1ts
        have ha2 : lastAt l2 ts' = some s2 := lastAt_of_nodup (hnd l2 hl2) hs2 h2ts
        have m1 : s1 ∈ subs.filterMap (fun l => lastAt l ts') :=
          List.mem_filterMap.mpr ⟨l1, hl1, ha1⟩
        have m2 : s2 ∈ subs.filterMap (fun l => lastAt l ts') :=
          List.mem_filterMap.mpr ⟨l2, hl2, ha2⟩
        exact ((actionsAgree_iff _).mp hagr).2 s1 m1 s2 m2
    · rintro ⟨hpresent, hagree⟩
      have hsome : ∀ l ∈ subs, (lastAt l ts).isSome := by
        intro l hl
        exact lastAt_isSome_iff.mpr (hpresent l hl)
      have hlenq : (subs.filterMap (fun l => lastAt l ts)).length = subs.length :=
        (filterMap_length_eq_iff _ subs).mpr hsome
      have hatne : subs.filterMap (fun l => lastAt l ts) ≠ [] := by
        intro h
        rw [h] at hlenq
        simp only [List.length_nil] at hlenq
        exact hsubne (List.length_eq_zero.mp hlenq.symm)
      have hagr : actionsAgree (subs.filterMap (fun l => lastAt l ts)) = true := by
        rw [actionsAgree_iff]
        refine ⟨hatne, ?_⟩
        intro s1 h1 s2 h2
        rcases List.mem_filterMap.mp h1 with ⟨l1, hl1, ha1⟩
        rcases List.mem_filterMap.mp h2 with ⟨l2, hl2, ha2⟩
        rcases lastAt_eq_some ha1 with ⟨hs1, hts1⟩
        rcases lastAt_eq_some ha2 with ⟨hs2, hts2⟩
        exact hagree l1 hl1 l2 hl2 s1 hs1 s2 hs2 hts1 hts2
      rcases hat : subs.filterMap (fun l => lastAt l ts) with _ | ⟨s0, rest⟩
      · exact absurd hat hatne
      · have hs0at : s0 ∈ subs.filterMap (fun l => lastAt l ts) := by
          rw [hat]
          exact List.mem_cons_self s0 rest
        rcases List.mem_filterMap.mp hs0at with ⟨l, hl, hlast⟩
        have hts0 : s0.timestamp = ts := (lastAt_eq_some hlast).2
        refine ⟨{ s0 with
          indicator := joinIndicators (subs.filterMap (fun l => lastAt l ts)) },
          ?_, by simpa using hts0⟩
        apply (hmem _).mpr
        refine ⟨ts, ?_, ?_⟩
        · apply mem_signalTimestamps.mpr
          rcases List.exists_mem_of_ne_nil _ hsubne with ⟨l2, hl2⟩
          rcases hpresent l2 hl2 with ⟨s, hs, hts2⟩
          exact ⟨l2, hl2, s, hs, hts2⟩
        · simp only [combineAt]
          rw [if_pos ⟨hlenq, hagr⟩, hat]
          rfl
  have partb : ∀ m ∈ combinedSignals Method.AND subs,
      ∃ l0 s0, subs.head? = some l0 ∧ s0 ∈ l0 ∧ s0.timestamp = m.timestamp ∧
        m.price = s0.price ∧
        m.indicator =
          joinIndicators (subs.filterMap (fun l => lastAt l m.timestamp)) := by
    intro m hm
    rcases (hmem m).mp hm with ⟨ts, -, hco⟩
    have htm : m.timestamp = ts := hts_of ts m hco
    subst htm
    rcases hdec _ m hco with ⟨hlenq, -, s0', hhead, hmeq⟩
    rcases hsubs : subs with _ | ⟨l0, rest⟩
    · exact absurd hsubs hsubne
    · subst hsubs
      have hsome : ∀ l ∈ l0 :: rest, (lastAt l m.timestamp).isSome :=
        (filterMap_length_eq_iff _ (l0 :: rest)).mp hlenq
      have h0 : (lastAt l0 m.timestamp).isSome := hsome l0 (by simp)
      rcases Option.isSome_iff_exists.mp h0 with ⟨s0, hs0⟩
      have hheadeq : ((l0 :: rest).filterMap (fun l => lastAt l m.timestamp)).head? =
          some s0 := by
        simp [List.filterMap_cons, hs0]
      have hs0eq : s0' = s0 := by
        rw [hheadeq] at hhead
        exact (Option.some.inj hhead).symm
      subst hs0eq
      rcases lastAt_eq_some hs0 with ⟨hmem0, hts0⟩
      refine ⟨l0, s0', rfl, hmem0, hts0, ?_, ?_⟩
      · have hp := congrArg Signal.price hmeq
        simpa using hp
      · have hi := congrArg Signal.indicator hmeq
        simpa using hi
  have partc : ∀ l1 l2, subs = [l1, l2] →
      (∀ s1 ∈ l1, ∀ s2 ∈ l2, s1.timestamp ≠ s2.timestamp) →
      combinedSignals Method.AND subs = [] := by
    intro l1 l2 hs hdisj
    by_contra hne
    rcases List.exists_mem_of_ne_nil _ hne with ⟨m, hm⟩
    rcases (parta m.timestamp).mp ⟨m, hm, rfl⟩ with ⟨hpresent, -⟩
    rcases hpresent l1 (by rw [hs]; simp) with ⟨s1, hs1, ht1⟩
    rcases hpresent l2 (by rw [hs]; simp) with ⟨s2, hs2, ht2⟩
    exact hdisj s1 hs1 s2 hs2 (by rw [ht1, ht2])
  exact ⟨parta, partb, partc⟩

/-- Witness for C4 at a concrete input: two sub-strategies that both fire
BUY at timestamp 1. -/
theorem combined_and_merge_characterization_witness :
    2 ≤ subsW.length ∧
    (∀ l ∈ subsW, (l.map (fun s => s.timestamp)).Nodup) ∧
    ((∀ ts : ℕ,
      (∃ m ∈ combinedSignals Method.AND subsW, m.timestamp = ts) ↔
        ((∀ l ∈ subsW, ∃ s ∈ l, s.timestamp = ts) ∧
         ∀ l1 ∈ subsW, ∀ l2 ∈ subsW, ∀ s1 ∈ l1, ∀ s2 ∈ l2,
           s1.timestamp = ts → s2.timestamp = ts → s1.action = s2.action)) ∧
    (∀ m ∈ combinedSignals Method.AND subsW,
      ∃ l0 s0, subsW.head? = some l0 ∧ s0 ∈ l0 ∧ s0.timestamp = m.timestamp ∧
        m.price = s0.price ∧
        m.indicator =
          joinIndicators (subsW.filterMap (fun l => lastAt l m.timestamp))) ∧
    (∀ l1 l2, subsW = [l1, l2] →
      (∀ s1 ∈ l1, ∀ s2 ∈ l2, s1.timestamp ≠ s2.timestamp) →
      combinedSignals Method.AND subsW = [])) :=
  ⟨by decide, by decide, combined_and_merge_characterization subsW (by decide) (by decide)⟩

end Dashboard
